import Mathlib

/-!
Verification of the Ollama gateway's outbound request pipeline.

This file gives a shallow embedding, in Lean, of the repository's
service-layer code: the token estimator (`countTokens`), the
context-budget truncation of prompts and message lists
(`processLongPrompt`, `processLongMessages`, `truncateText`), the
retrying transport (`retryRequest`), the newline-delimited stream
aggregation used by the streaming chat endpoint, and the chat
completion orchestration (`generateChatCompletion`).  JavaScript
strings are modelled as `List Char`; JavaScript numbers that the code
uses as integers are modelled as `Nat` or `Int` (with `Int` wherever
the source value can go negative); fallible steps return `Option` or
`Except`.  Floating-point products with the literals 0.7, 0.8, 1.3 and
0.25 are modelled by exact rational arithmetic realised with integer
division (for every value the fixed model table can produce, the
floating-point and the rational computation round to the same
integer).
-/

/-- A chat message: a role string plus content text.  Content is a
`List Char`, mirroring character-indexed JavaScript strings. -/
structure Message where
  role : String
  content : List Char
  deriving DecidableEq

/-- JavaScript regular-expression whitespace (`\s`), restricted to the
ASCII whitespace characters: space, tab, newline, vertical tab, form
feed, carriage return. -/
def isWsChar (c : Char) : Bool :=
  c = ' ' || c = '\t' || c = '\n' || c = '\x0b' || c = '\x0c' || c = '\r'

/-- Helper for the word count in `countTokens`: counts the maximal runs
of non-whitespace characters (`text.split(/\s+/).filter(w => w.length > 0).length`
in the source).  The boolean flag records whether the scan is currently
inside a run. -/
def countWordsAux : List Char → Bool → Nat
  | [], _ => 0
  | c :: cs, inWord =>
    if isWsChar c then countWordsAux cs false
    else (if inWord then 0 else 1) + countWordsAux cs true

/-- Number of whitespace-separated words of a text. -/
def countWords (text : List Char) : Nat :=
  countWordsAux text false

/-- `countTokens` on a string, from `OllamaService.countTokens`:
`Math.ceil(words * 1.3 + chars * 0.25)`.  With `w` words and `c`
characters the exact value is `(26*w + 5*c) / 20`, so the ceiling is
`(26*w + 5*c + 19) / 20` in integer division. -/
def countTokens (text : List Char) : Nat :=
  (26 * countWords text + 5 * text.length + 19) / 20

/-- `countTokens` on a message array: sums the token estimate of each
message's content. -/
def countTokensMsgs (messages : List Message) : Nat :=
  messages.foldl (fun total m => total + countTokens m.content) 0

/-- The model-specific context-limit table used by `processLongPrompt`
and `processLongMessages`; unknown model names fall back to the
`default` entry, 4096. -/
def contextLimit (model : String) : Nat :=
  if model = "llama2" then 4096
  else if model = "llama3" then 8192
  else if model = "gemma" then 8192
  else if model = "gemma2" then 8192
  else if model = "gemma3" then 8192
  else if model = "mistral" then 8192
  else if model = "codellama" then 16384
  else if model = "phi" then 2048
  else 4096

/-- `maxPromptTokens` in `processLongPrompt`:
`Math.floor(contextLimit * 0.7)` — 70% of the context window is
reserved for the prompt. -/
def maxPromptTokens (model : String) : Nat :=
  contextLimit model * 7 / 10

/-- `maxMessageTokens` in `processLongMessages`:
`Math.floor(contextLimit * 0.7)`. -/
def maxMessageTokens (model : String) : Nat :=
  contextLimit model * 7 / 10

/-- The marker inserted by `processLongPrompt` between the kept head
and tail of a truncated prompt. -/
def promptTruncMarker : List Char :=
  "\n\n[... content truncated due to length ...]\n\n".data

/-- `OllamaService.processLongPrompt`: if the estimated token count is
within the budget the prompt is returned unchanged; otherwise, if the
character length is within `maxChars = maxPromptTokens * 4` it is
still returned unchanged; otherwise the first
`Math.floor(maxChars * 0.8)` characters and the last
`maxChars - truncationPoint - 100` characters are kept around a
truncation marker. -/
def processLongPrompt (prompt : List Char) (model : String) : List Char :=
  let maxTok := maxPromptTokens model
  if countTokens prompt ≤ maxTok then prompt
  else
    let maxChars := maxTok * 4
    let truncationPoint := maxChars * 4 / 5
    let endPoint := maxChars - truncationPoint - 100
    if prompt.length ≤ maxChars then prompt
    else
      prompt.take truncationPoint ++ promptTruncMarker ++
        prompt.drop (prompt.length - endPoint)

/-- The marker inserted by `truncateText`. -/
def textTruncMarker : List Char :=
  "\n[... truncated ...]\n".data

/-- `OllamaService.truncateText`: keeps the first
`Math.floor(maxChars * 0.8)` and the last `maxChars - startChars - 50`
characters around a marker.  `maxChars` is an `Int` because the caller
can pass a negative value (when the remaining budget is already
negative); JavaScript `substring` clamps its arguments, which the
`Int.toNat` conversions reproduce. -/
def truncateText (text : List Char) (maxChars : Int) : List Char :=
  if (text.length : Int) ≤ maxChars then text
  else
    let startChars : Int := Int.fdiv (maxChars * 4) 5
    let endChars : Int := maxChars - startChars - 50
    text.take startChars.toNat ++ textTruncMarker ++
      text.drop (text.length - endChars.toNat)

/-- The marker appended by `processLongMessages` to a truncated
message's content. -/
def messageTruncMarker : List Char :=
  "\n[... message truncated due to length ...]".data

/-- The truncated replacement message built by `processLongMessages`
for the first recent message that does not fit the remaining budget:
`truncateText(content, Math.floor(remainingTokens * 4))` with the
message-truncation marker appended; the role is preserved by the
object spread. -/
def truncMessage (remaining : Int) (m : Message) : Message :=
  { m with content := truncateText m.content (remaining * 4) ++ messageTruncMarker }

/-- The `for (const message of recentMessages)` loop of
`processLongMessages`: each message whose estimated tokens fit the
remaining budget is kept and the budget decremented; the first message
that does not fit is truncated and the loop breaks, dropping all later
messages.  `remaining` is an `Int` because the system messages alone
can exceed the budget. -/
def fitLoop (remaining : Int) : List Message → List Message
  | [] => []
  | m :: rest =>
    let messageTokens := countTokens m.content
    if (messageTokens : Int) ≤ remaining then
      m :: fitLoop (remaining - messageTokens) rest
    else
      [truncMessage remaining m]

/-- `OllamaService.processLongMessages`: below budget the messages are
returned unchanged; otherwise the system messages are all kept (in
order), only the last 3 non-system messages (`slice(-3)`) are
considered, and the fitting loop above selects from them. -/
def processLongMessages (messages : List Message) (model : String) : List Message :=
  let maxTok := maxMessageTokens model
  if countTokensMsgs messages ≤ maxTok then messages
  else
    let systemMessages := messages.filter (fun m => m.role == "system")
    let nonSystemMessages := messages.filter (fun m => !(m.role == "system"))
    let recentMessages := nonSystemMessages.drop (nonSystemMessages.length - 3)
    systemMessages ++
      fitLoop ((maxTok : Int) - (countTokensMsgs systemMessages : Int)) recentMessages

/-- A raw transport-level failure produced by the HTTP client: an
optional error code (such as `ECONNABORTED`) and a message. -/
structure TransportError where
  code : Option String
  message : List Char
  deriving DecidableEq

/-- The timeout classification in `retryRequest`:
`error.code === 'ECONNABORTED' || message.includes('timeout') || message.includes('ETIMEDOUT')`. -/
def isTimeoutError (e : TransportError) : Bool :=
  e.code == some "ECONNABORTED" ||
    decide ("timeout".data <:+: e.message) ||
    decide ("ETIMEDOUT".data <:+: e.message)

/-- The typed application errors of the error module: the `AppError`
base class (with status code, error code and correlation id), its
`TimeoutError` subclass (which additionally carries the timeout
value), and its `ExternalServiceError` subclass (which names the
failed service). -/
inductive AppException where
  | appError (message : String) (statusCode : Nat) (code : String) (correlationId : String)
  | timeoutError (message : String) (correlationId : String) (timeout : Nat)
  | externalServiceError (message : String) (correlationId : String) (service : String)
  deriving DecidableEq

/-- What `retryRequest` can throw: a typed application error (the
`TimeoutError` built on the last timed-out attempt), the raw transport
error of the last attempt, or `undefined` (the JavaScript
`throw lastError` when the loop body never ran). -/
inductive Thrown where
  | app (e : AppException)
  | transport (e : TransportError)
  | undef
  deriving DecidableEq

/-- Retry configuration: `this.maxRetries` (default 3) and
`this.timeout` (default 30000 ms). -/
structure RetryConfig where
  maxRetries : Nat
  timeout : Nat
  deriving DecidableEq

/-- The message of the `TimeoutError` thrown after the last attempt. -/
def timeoutMessage (maxRetries : Nat) : String :=
  "Request timeout after " ++ toString maxRetries ++
    " attempts. The Ollama server took too long to respond."

/-- The retry loop of `OllamaService.retryRequest`.  `requestFn` is
the outbound call, modelled as a deterministic function of the attempt
number.  The structural argument `remaining` counts the iterations
left (`maxRetries + 1 - attempt`), so the loop guard
`attempt <= maxRetries` is `remaining > 0` and the last-attempt test
`attempt === maxRetries` is `remaining = 1`.  Returns the outcome
together with the number of invocations of `requestFn` performed.  On
the last attempt a timeout-classified failure becomes a
`TimeoutError` carrying `options.timeout || this.timeout` (the base
timeout, since every call site passes empty options) and the
correlation id; any other last failure is rethrown as-is; if the loop
never runs (`maxRetries = 0`) the JavaScript `throw lastError` throws
`undefined`. -/
def retryGo (maxRetries timeout : Nat) (cid : String)
    (requestFn : Nat → Except TransportError α) :
    Nat → Nat → Except Thrown α × Nat
  | 0, _attempt => (.error .undef, 0)
  | remaining + 1, attempt =>
    match requestFn attempt with
    | .ok v => (.ok v, 1)
    | .error e =>
      if remaining = 0 then
        if isTimeoutError e then
          (.error (.app (.timeoutError (timeoutMessage maxRetries) cid timeout)), 1)
        else
          (.error (.transport e), 1)
      else
        let r := retryGo maxRetries timeout cid requestFn remaining (attempt + 1)
        (r.1, r.2 + 1)

/-- `OllamaService.retryRequest`: the retry loop started at attempt 1
(so with `maxRetries` iterations remaining). -/
def retryRequest (cfg : RetryConfig) (cid : String)
    (requestFn : Nat → Except TransportError α) : Except Thrown α × Nat :=
  retryGo cfg.maxRetries cfg.timeout cid requestFn cfg.maxRetries 1

/-- JSON values, as produced by `JSON.parse`.  Numbers keep their
source lexeme (the claims never inspect numeric values, only
truthiness). -/
inductive Json where
  | null
  | bool (b : Bool)
  | num (lexeme : List Char)
  | str (s : List Char)
  | arr (elems : List Json)
  | obj (fields : List (List Char × Json))

/-- JSON insignificant whitespace. -/
def isJsonWs (c : Char) : Bool :=
  c = ' ' || c = '\t' || c = '\n' || c = '\r'

/-- Skip insignificant whitespace. -/
def skipWs (s : List Char) : List Char :=
  s.dropWhile isJsonWs

/-- Decode one hexadecimal digit. -/
def hexVal (c : Char) : Option Nat :=
  if '0' ≤ c ∧ c ≤ '9' then some (c.toNat - '0'.toNat)
  else if 'a' ≤ c ∧ c ≤ 'f' then some (c.toNat - 'a'.toNat + 10)
  else if 'A' ≤ c ∧ c ≤ 'F' then some (c.toNat - 'A'.toNat + 10)
  else none

/-- The body of a JSON string, after the opening quote: decodes escape
sequences and stops at the closing quote, returning the decoded
characters and the rest of the input.  Unescaped control characters
are a syntax error, as in `JSON.parse`. -/
def parseStringBody : List Char → Option (List Char × List Char)
  | [] => none
  | '"' :: rest => some ([], rest)
  | '\\' :: 'u' :: a :: b :: c :: d :: rest =>
    match hexVal a, hexVal b, hexVal c, hexVal d with
    | some ha, some hb, some hc, some hd =>
      (parseStringBody rest).map fun (s, r) =>
        (Char.ofNat (((ha * 16 + hb) * 16 + hc) * 16 + hd) :: s, r)
    | _, _, _, _ => none
  | '\\' :: e :: rest =>
    let dec : Option Char :=
      if e = '"' then some '"'
      else if e = '\\' then some '\\'
      else if e = '/' then some '/'
      else if e = 'b' then some '\x08'
      else if e = 'f' then some '\x0c'
      else if e = 'n' then some '\n'
      else if e = 'r' then some '\r'
      else if e = 't' then some '\t'
      else none
    match dec with
    | none => none
    | some c => (parseStringBody rest).map fun (s, r) => (c :: s, r)
  | c :: rest =>
    if c.toNat < 32 then none
    else (parseStringBody rest).map fun (s, r) => (c :: s, r)

/-- Lexes a JSON number (`-? int frac? exp?`), returning its lexeme and
the rest of the input. -/
def parseNumberLexeme (s : List Char) : Option (List Char × List Char) :=
  let (neg, s1) := match s with
    | '-' :: r => (['-'], r)
    | _ => ([], s)
  let intPart := s1.takeWhile Char.isDigit
  let s2 := s1.drop intPart.length
  if intPart = [] then none
  else if intPart.length > 1 ∧ intPart.head? = some '0' then none
  else
    let (fracPart, s3) := match s2 with
      | '.' :: r =>
        let ds := r.takeWhile Char.isDigit
        if ds = [] then ([], s2) else ('.' :: ds, r.drop ds.length)
      | _ => ([], s2)
    if s2 ≠ s3 ∨ fracPart = [] then
      match s2, fracPart with
      | '.' :: _, [] => none
      | _, _ =>
        let (expPart, s4) := match s3 with
          | 'e' :: r | 'E' :: r =>
            let (sgn, r2) := match r with
              | '+' :: rr => (['+'], rr)
              | '-' :: rr => (['-'], rr)
              | _ => ([], r)
            let ds := r2.takeWhile Char.isDigit
            if ds = [] then ([], s3)
            else ('e' :: sgn ++ ds, r2.drop ds.length)
          | _ => ([], s3)
        match s3, expPart with
        | 'e' :: _, [] => none
        | 'E' :: _, [] => none
        | _, _ => some (neg ++ intPart ++ fracPart ++ expPart, s4)
    else none

mutual

/-- Recursive-descent JSON value parse, modelling `JSON.parse`'s
grammar.  The fuel argument decreases on every nested parse; the entry
point supplies enough fuel for any input (the parser consumes at least
one character before each descent). -/
def parseValue : Nat → List Char → Option (Json × List Char)
  | 0, _ => none
  | fuel + 1, s =>
    match skipWs s with
    | [] => none
    | c :: rest =>
      if c = '\x7b' then
        match skipWs rest with
        | [] => none
        | c2 :: r2 =>
          if c2 = '\x7d' then some (.obj [], r2)
          else (parseMembers fuel (c2 :: r2)).map fun (fs, r) => (.obj fs, r)
      else if c = '[' then
        match skipWs rest with
        | [] => none
        | c2 :: r2 =>
          if c2 = ']' then some (.arr [], r2)
          else (parseElems fuel (c2 :: r2)).map fun (vs, r) => (.arr vs, r)
      else if c = '"' then
        (parseStringBody rest).map fun (str, r) => (.str str, r)
      else if c = 't' then
        match rest with
        | 'r' :: 'u' :: 'e' :: r => some (.bool true, r)
        | _ => none
      else if c = 'f' then
        match rest with
        | 'a' :: 'l' :: 's' :: 'e' :: r => some (.bool false, r)
        | _ => none
      else if c = 'n' then
        match rest with
        | 'u' :: 'l' :: 'l' :: r => some (.null, r)
        | _ => none
      else
        (parseNumberLexeme (c :: rest)).map fun (lex, r) => (.num lex, r)

/-- The members of a JSON object, after the opening brace (first
member must follow). -/
def parseMembers : Nat → List Char → Option (List (List Char × Json) × List Char)
  | 0, _ => none
  | fuel + 1, s =>
    match skipWs s with
    | '"' :: rest =>
      match parseStringBody rest with
      | none => none
      | some (key, r1) =>
        match skipWs r1 with
        | ':' :: r2 =>
          match parseValue fuel r2 with
          | none => none
          | some (v, r3) =>
            match skipWs r3 with
            | ',' :: r4 =>
              (parseMembers fuel r4).map fun (fs, r) => ((key, v) :: fs, r)
            | c :: r4 =>
              if c = '\x7d' then some ([(key, v)], r4) else none
            | [] => none
        | _ => none
    | _ => none

/-- The elements of a JSON array, after the opening bracket (first
element must follow). -/
def parseElems : Nat → List Char → Option (List Json × List Char)
  | 0, _ => none
  | fuel + 1, s =>
    match parseValue fuel s with
    | none => none
    | some (v, r) =>
      match skipWs r with
      | ',' :: r2 => (parseElems fuel r2).map fun (vs, rr) => (v :: vs, rr)
      | ']' :: r2 => some ([v], r2)
      | _ => none

end

/-- `JSON.parse`: parses one JSON value and requires only whitespace to
remain; `none` models the thrown `SyntaxError`. -/
def jsonParse (s : List Char) : Option Json :=
  match parseValue (s.length + 1) s with
  | none => none
  | some (v, rest) => if skipWs rest = [] then some v else none

/-- JavaScript property access on a parsed JSON value: on an object the
last binding of the name wins (as in `JSON.parse`); on anything else
the result is `undefined`, modelled as `none`. -/
def getField (v : Json) (name : List Char) : Option Json :=
  match v with
  | .obj fields => ((fields.filter fun f => f.1 == name).getLast?).map Prod.snd
  | _ => none

/-- Whether a number lexeme denotes zero (all mantissa digits `0`). -/
def numLexemeIsZero (lexeme : List Char) : Bool :=
  (lexeme.takeWhile fun c => !(c = 'e' || c = 'E')).all
    fun c => c = '0' || c = '.' || c = '-'

/-- JavaScript truthiness of a parsed JSON value (`undefined` is
handled by `getField` returning `none`). -/
def truthy : Json → Bool
  | .null => false
  | .bool b => b
  | .num lexeme => !numLexemeIsZero lexeme
  | .str s => !s.isEmpty
  | .arr _ => true
  | .obj _ => true

/-- The content extraction applied to each parsed stream line:
`if (parsed.message && parsed.message.content) fullContent += parsed.message.content`.
The Ollama stream carries string content; a truthy non-string content
(which JavaScript would coerce) is modelled as contributing nothing,
and no claim depends on that case. -/
def extractContent (parsed : Json) : List Char :=
  match getField parsed "message".data with
  | none => []
  | some m =>
    if truthy m then
      match getField m "content".data with
      | some (.str s) => if !s.isEmpty then s else []
      | _ => []
    else []

/-- One complete line of the stream: an empty line is skipped
(`if (jsonStr)`), any other line is parsed as JSON (a parse failure is
the thrown `SyntaxError`, propagated as `.error`) and its
`message.content` fragment extracted. -/
def processStreamLine (line : List Char) : Except Unit (List Char) :=
  if line = [] then .ok []
  else
    match jsonParse line with
    | none => .error ()
    | some v => .ok (extractContent v)

/-- Splits a buffer at its first newline (`buffer.indexOf('\n')` plus
the two `substring` calls): `none` when the buffer holds no newline. -/
def splitAtNewline : List Char → Option (List Char × List Char)
  | [] => none
  | c :: cs =>
    if c = '\n' then some ([], cs)
    else
      match splitAtNewline cs with
      | none => none
      | some (l, r) => some (c :: l, r)

/-- Single left-to-right pass realising the inner
`while (boundary !== -1)` loop of the stream consumer: `cur` holds the
(reversed) characters of the current line read so far; at each newline
the completed line is processed and its content fragment accumulated;
the characters after the last newline become the new buffer.  The
lemmas `consumeLines_no_newline` and `consumeLines_split` below
recover the `indexOf('\n')`/`substring` formulation of the source. -/
def scanLines (cur : List Char) : List Char → Except Unit (List Char × List Char)
  | [] => .ok ([], cur.reverse)
  | c :: cs =>
    if c = '\n' then
      match processStreamLine cur.reverse with
      | .error e => .error e
      | .ok content =>
        match scanLines [] cs with
        | .error e => .error e
        | .ok (acc, leftover) => .ok (content ++ acc, leftover)
    else scanLines (c :: cur) cs

/-- The inner `while (boundary !== -1)` loop of the stream consumer:
extracts every complete line of the buffer in order, accumulating the
content fragments, and returns the trailing partial line as the new
buffer. -/
def consumeLines (buf : List Char) : Except Unit (List Char × List Char) :=
  scanLines [] buf

/-- The `for await (const chunk of response.data)` loop of
`generateChatCompletion`: each chunk is appended to the buffer, all
complete lines are consumed, and the trailing partial line is carried
over; when the stream ends, whatever remains in the buffer is
discarded and the accumulated content returned. -/
def aggregateAux (buffer fullContent : List Char) :
    List (List Char) → Except Unit (List Char)
  | [] => .ok fullContent
  | chunk :: rest =>
    match consumeLines (buffer ++ chunk) with
    | .error e => .error e
    | .ok (c, leftover) => aggregateAux leftover (fullContent ++ c) rest

/-- Stream aggregation over the whole chunk sequence, starting from an
empty buffer and accumulator. -/
def aggregateChunks (chunks : List (List Char)) : Except Unit (List Char) :=
  aggregateAux [] [] chunks

/-- The parameters of a chat completion call; the model name is
optional and defaults to `llama2` (`DEFAULT_MODEL` unset).  The
temperature and `max_tokens` options are forwarded unchanged to the
backend request and never affect the modelled observables, so they are
not carried here. -/
structure ChatParams where
  model : Option String
  messages : List Message
  deriving DecidableEq

/-- The usage statistics of a completion result. -/
structure Usage where
  prompt_tokens : Nat
  completion_tokens : Nat
  total_tokens : Nat
  deriving DecidableEq

/-- The normalized chat completion result: `data.message.content`
flattened to `content`, plus the model name and usage. -/
structure ChatResult where
  success : Bool
  content : List Char
  model : String
  usage : Usage
  deriving DecidableEq

/-- The streaming `OllamaService.generateChatCompletion` of the
TypeScript service: validates that `messages` is non-empty (throwing a
400 `VALIDATION_ERROR` `AppError` tagged with the correlation id
before any backend call), sends the request through `retryRequest`
(the backend is modelled as the chunk stream each attempt would
yield), reassembles the newline-delimited stream, and computes usage
from `countTokens(messages)` and the character length of the
accumulated content.  Thrown `AppError`s pass through; any other
failure (raw transport error, stream `SyntaxError`) is wrapped as an
`ExternalServiceError` naming Ollama.  The second component counts the
backend invocations performed. -/
def generateChatCompletion (cfg : RetryConfig) (params : ChatParams)
    (cid : String) (backend : Nat → Except TransportError (List (List Char))) :
    Except AppException ChatResult × Nat :=
  let model := params.model.getD "llama2"
  if params.messages.length = 0 then
    (.error (.appError "Messages array is required and must not be empty"
      400 "VALIDATION_ERROR" cid), 0)
  else
    match retryRequest cfg cid backend with
    | (.error (.app e), n) => (.error e, n)
    | (.error _, n) =>
      (.error (.externalServiceError "Chat completion failed" cid "Ollama"), n)
    | (.ok chunks, n) =>
      match aggregateChunks chunks with
      | .error _ =>
        (.error (.externalServiceError "Chat completion failed" cid "Ollama"), n)
      | .ok fullContent =>
        (.ok { success := true
               content := fullContent
               model := model
               usage :=
                 { prompt_tokens := countTokensMsgs params.messages
                   completion_tokens := fullContent.length
                   total_tokens :=
                     countTokensMsgs params.messages + fullContent.length } }, n)


/-!
Concrete inputs used by the counterexamples and witnesses below.
-/

/-- A prompt of 5732 copies of a non-whitespace character: its token
estimate (1435) exceeds the `phi` budget (1433) while its character
length does not exceed `maxChars = 1433 * 4 = 5732`. -/
def longRunPrompt : List Char := List.replicate 5732 'a'

/-- A prompt of 5800 copies of a non-whitespace character: both above
the `phi` token budget and above the character bound. -/
def longerRunPrompt : List Char := List.replicate 5800 'a'

/-- A long first (oldest) user message. -/
def bigUserMsg : Message := ⟨"user", List.replicate 6000 'a'⟩

/-- A short middle user message. -/
def smallUserMsg : Message := ⟨"user", "b".data⟩

/-- The short most recent message, with a distinct role. -/
def recentAssistantMsg : Message := ⟨"assistant", "c".data⟩

/-- A three-message conversation whose total estimate (1506) exceeds
the `phi` budget (1433) although the most recent message alone is far
below it. -/
def overBudgetMsgs : List Message := [bigUserMsg, smallUserMsg, recentAssistantMsg]

/-- First stream chunk of the spec scenario: a line cut mid-object. -/
def helChunk : List Char := "\x7b\"message\":\x7b\"content\":\"Hel".data

/-- Second stream chunk: the rest of the first line, a newline, and a
second complete line. -/
def loWorldChunk : List Char :=
  "lo\"\x7d\x7d\n\x7b\"message\":\x7b\"content\":\" world\"\x7d\x7d\n".data

/-- A complete JSON line carrying content, not terminated by a
newline. -/
def danglingLine : List Char := "\x7b\"message\":\x7b\"content\":\"Hi\"\x7d\x7d".data

/-- A backend stub that streams a single newline-terminated line with
content `Hello!` on every attempt. -/
def helloBackend : Nat → Except TransportError (List (List Char)) :=
  fun _ => .ok ["\x7b\"message\":\x7b\"content\":\"Hello!\"\x7d\x7d\n".data]

/-- A request function that fails on its first invocation and succeeds
on the second. -/
def failOnceFn : Nat → Except TransportError Nat :=
  fun i => if i ≤ 1 then .error ⟨none, "connection reset".data⟩ else .ok 42

/-- A request function whose every invocation fails with a
timeout-classified error. -/
def alwaysTimeoutFn : Nat → Except TransportError Nat :=
  fun _ => .error ⟨some "ECONNABORTED", "timeout of 30000ms exceeded".data⟩

/-!
Helper lemmas shared between the claim theorems.
-/

/-- Every entry of the context-limit table is at least 2048. -/
theorem contextLimit_ge (model : String) : 2048 ≤ contextLimit model := by
  unfold contextLimit
  split_ifs <;> norm_num

/-- The prompt budget is at least 1433 for every model. -/
theorem maxPromptTokens_ge (model : String) : 1433 ≤ maxPromptTokens model := by
  have h := contextLimit_ge model
  unfold maxPromptTokens
  omega

/-- The message budget is at least 1433 for every model. -/
theorem maxMessageTokens_ge (model : String) : 1433 ≤ maxMessageTokens model := by
  have h := contextLimit_ge model
  unfold maxMessageTokens
  omega

/-- A run of copies of a non-whitespace character continues the
current word: scanned from inside a word it contributes no new word. -/
theorem countWordsAux_replicate (c : Char) (hc : isWsChar c = false) (n : Nat) :
    countWordsAux (List.replicate n c) true = 0 := by
  induction n with
  | zero => rfl
  | succ k ih => simp [List.replicate_succ, countWordsAux, hc, ih]

/-- A nonempty run of copies of a non-whitespace character is exactly
one word. -/
theorem countWords_replicate (c : Char) (hc : isWsChar c = false) (n : Nat) :
    countWords (List.replicate (n + 1) c) = 1 := by
  simp [countWords, List.replicate_succ, countWordsAux, hc,
    countWordsAux_replicate c hc]

/-- The token estimate of a nonempty run of a non-whitespace
character. -/
theorem countTokens_replicate (c : Char) (hc : isWsChar c = false) (n : Nat) :
    countTokens (List.replicate (n + 1) c) = (5 * n + 50) / 20 := by
  unfold countTokens
  rw [countWords_replicate c hc, List.length_replicate]
  congr 1
  omega

/-- `countTokens` over a cons of messages. -/
theorem countTokensMsgs_cons (m : Message) (l : List Message) :
    countTokensMsgs (m :: l) = countTokens m.content + countTokensMsgs l := by
  have haux : ∀ (l : List Message) (a : Nat),
      l.foldl (fun total mm => total + countTokens mm.content) a =
        a + l.foldl (fun total mm => total + countTokens mm.content) 0 := by
    intro l
    induction l with
    | nil => intro a; simp
    | cons x xs ih =>
      intro a
      simp only [List.foldl_cons]
      rw [ih (a + countTokens x.content), ih (0 + countTokens x.content)]
      omega
  simp only [countTokensMsgs, List.foldl_cons]
  rw [haux l (0 + countTokens m.content)]
  omega

/-- A prompt whose character length is within `maxChars` is returned
unchanged by `processLongPrompt` (either early return applies). -/
theorem processLongPrompt_short (model : String) (prompt : List Char)
    (h : prompt.length ≤ maxPromptTokens model * 4) :
    processLongPrompt prompt model = prompt := by
  dsimp only [processLongPrompt]
  split_ifs
  · rfl
  · rfl

/-- The truncated form produced by `processLongPrompt` on a prompt
that exceeds both the token budget and the character bound. -/
theorem processLongPrompt_long (model : String) (prompt : List Char)
    (h1 : ¬ countTokens prompt ≤ maxPromptTokens model)
    (h2 : ¬ prompt.length ≤ maxPromptTokens model * 4) :
    processLongPrompt prompt model =
      prompt.take (maxPromptTokens model * 4 * 4 / 5) ++ promptTruncMarker ++
        prompt.drop (prompt.length -
          (maxPromptTokens model * 4 - maxPromptTokens model * 4 * 4 / 5 - 100)) := by
  dsimp only [processLongPrompt]
  rw [if_neg h1, if_neg h2]

/-- The length of the truncated prompt: always `maxChars - 55`
(`truncationPoint + 45 + endPoint`). -/
theorem processLongPrompt_long_length (model : String) (prompt : List Char)
    (h1 : ¬ countTokens prompt ≤ maxPromptTokens model)
    (h2 : ¬ prompt.length ≤ maxPromptTokens model * 4) :
    (processLongPrompt prompt model).length = maxPromptTokens model * 4 - 55 := by
  rw [processLongPrompt_long model prompt h1 h2]
  have hb := maxPromptTokens_ge model
  have hmarker : promptTruncMarker.length = 45 := rfl
  simp only [List.length_append, List.length_take, List.length_drop, hmarker]
  omega

/-- The `phi` entry of the budget table. -/
theorem maxPromptTokens_phi : maxPromptTokens "phi" = 1433 := by decide

/-- The token estimate of the 5732-character run. -/
theorem countTokens_longRun : countTokens longRunPrompt = 1435 := by
  have h := countTokens_replicate 'a' rfl 5731
  have e1 : (5731 : Nat) + 1 = 5732 := by norm_num
  have e2 : (5 * 5731 + 50) / 20 = 1435 := by norm_num
  rw [e1, e2] at h
  exact h

/-- Claim C1 is false as stated: for the model `phi` and the
5732-character single-word prompt, the token estimate (1435) exceeds
`floor(limit * 0.7) = 1433`, yet `processLongPrompt` returns the
prompt unchanged (its second early return fires because the character
length does not exceed `maxPromptTokens * 4`), so the result is not
strictly shorter and carries no truncation marker. -/
theorem C1_counterexample :
    maxPromptTokens "phi" < countTokens longRunPrompt ∧
    processLongPrompt longRunPrompt "phi" = longRunPrompt ∧
    ¬ (processLongPrompt longRunPrompt "phi").length < longRunPrompt.length := by
  have hlen : longRunPrompt.length = 5732 := List.length_replicate 5732 'a'
  have hshort : processLongPrompt longRunPrompt "phi" = longRunPrompt := by
    apply processLongPrompt_short
    rw [hlen, maxPromptTokens_phi]
  refine ⟨?_, hshort, ?_⟩
  · rw [countTokens_longRun, maxPromptTokens_phi]
    norm_num
  · rw [hshort]
    omega

/-- Claim C1 (amended): for every model `m` and prompt `s` whose
estimate exceeds `floor(limit(m) * 0.7)` and whose character length
moreover exceeds `4 * floor(limit(m) * 0.7)`, `processLongPrompt`
returns a string strictly shorter than `s` that contains the
truncation marker together with a non-empty prefix of `s` and a
non-empty suffix of `s`. -/
theorem C1_amended (model : String) (prompt : List Char)
    (hTok : maxPromptTokens model < countTokens prompt)
    (hLen : maxPromptTokens model * 4 < prompt.length) :
    (processLongPrompt prompt model).length < prompt.length ∧
    promptTruncMarker <:+: processLongPrompt prompt model ∧
    (∃ p, p ≠ [] ∧ p <+: prompt ∧ p <+: processLongPrompt prompt model) ∧
    (∃ s, s ≠ [] ∧ s <:+ prompt ∧ s <:+ processLongPrompt prompt model) := by
  have hb := maxPromptTokens_ge model
  have h1 : ¬ countTokens prompt ≤ maxPromptTokens model := by omega
  have h2 : ¬ prompt.length ≤ maxPromptTokens model * 4 := by omega
  have heq := processLongPrompt_long model prompt h1 h2
  have hlen := processLongPrompt_long_length model prompt h1 h2
  set tp := maxPromptTokens model * 4 * 4 / 5 with htp
  set ep := maxPromptTokens model * 4 - tp - 100 with hep
  have htake : (prompt.take tp).length = tp := by
    simp only [List.length_take]
    omega
  have hdrop : (prompt.drop (prompt.length - ep)).length = ep := by
    simp only [List.length_drop]
    omega
  refine ⟨?_, ?_, ?_, ?_⟩
  · rw [hlen]
    omega
  · rw [heq]
    exact ⟨prompt.take tp, prompt.drop (prompt.length - ep), by simp⟩
  · refine ⟨prompt.take tp, ?_, List.take_prefix tp prompt, ?_⟩
    · intro hnil
      rw [hnil] at htake
      simp at htake
      omega
    · rw [heq]
      exact ⟨promptTruncMarker ++ prompt.drop (prompt.length - ep), by simp⟩
  · refine ⟨prompt.drop (prompt.length - ep), ?_, List.drop_suffix _ prompt, ?_⟩
    · intro hnil
      rw [hnil] at hdrop
      simp at hdrop
      omega
    · rw [heq]
      exact ⟨prompt.take tp ++ promptTruncMarker, by simp⟩

/-- Witness for the amended claim C1 at the model `phi` and the
5800-character single-word prompt. -/
theorem C1_witness :
    maxPromptTokens "phi" < countTokens longerRunPrompt ∧
    maxPromptTokens "phi" * 4 < longerRunPrompt.length ∧
    ((processLongPrompt longerRunPrompt "phi").length < longerRunPrompt.length ∧
      promptTruncMarker <:+: processLongPrompt longerRunPrompt "phi" ∧
      (∃ p, p ≠ [] ∧ p <+: longerRunPrompt ∧
        p <+: processLongPrompt longerRunPrompt "phi") ∧
      (∃ s, s ≠ [] ∧ s <:+ longerRunPrompt ∧
        s <:+ processLongPrompt longerRunPrompt "phi")) := by
  have h1 : maxPromptTokens "phi" < countTokens longerRunPrompt := by
    have h := countTokens_replicate 'a' rfl 5799
    have e1 : (5799 : Nat) + 1 = 5800 := by norm_num
    have e2 : (5 * 5799 + 50) / 20 = 1452 := by norm_num
    rw [e1, e2] at h
    have h3 : countTokens longerRunPrompt = 1452 := h
    rw [maxPromptTokens_phi, h3]
    norm_num
  have h2 : maxPromptTokens "phi" * 4 < longerRunPrompt.length := by
    have hlen : longerRunPrompt.length = 5800 := List.length_replicate 5800 'a'
    rw [maxPromptTokens_phi, hlen]
    norm_num
  exact ⟨h1, h2, C1_amended "phi" longerRunPrompt h1 h2⟩

/-- Claim C2: the prompt-fitting operation is idempotent — applying
`processLongPrompt` twice gives the same result as applying it once,
for every model and prompt. -/
theorem C2_theorem (model : String) (prompt : List Char) :
    processLongPrompt (processLongPrompt prompt model) model =
      processLongPrompt prompt model := by
  by_cases h1 : countTokens prompt ≤ maxPromptTokens model
  · have hp : processLongPrompt prompt model = prompt := by
      dsimp only [processLongPrompt]
      rw [if_pos h1]
    rw [hp]
    exact hp
  · by_cases h2 : prompt.length ≤ maxPromptTokens model * 4
    · have hp := processLongPrompt_short model prompt h2
      rw [hp]
      exact hp
    · have hb := maxPromptTokens_ge model
      have hlen := processLongPrompt_long_length model prompt h1 h2
      apply processLongPrompt_short
      rw [hlen]
      omega

/-- `countTokens` of no messages. -/
theorem countTokensMsgs_nil : countTokensMsgs [] = 0 := rfl

/-- Characterisation of the message-fitting loop: it keeps a
chronological prefix of its input — each kept message fitted the
budget remaining at its turn — followed, when some message did not
fit, by the truncated form of that first non-fitting message alone,
all later messages being dropped. -/
theorem fitLoop_spec (msgs : List Message) : ∀ r0 : Int, ∃ k,
    k ≤ msgs.length ∧
    (∀ i, i < k → ∀ m rest, msgs.drop i = m :: rest →
      (countTokens m.content : Int) ≤ r0 - (countTokensMsgs (msgs.take i) : Int)) ∧
    ((k = msgs.length ∧ fitLoop r0 msgs = msgs.take k) ∨
      (∃ m rest, msgs.drop k = m :: rest ∧
        r0 - (countTokensMsgs (msgs.take k) : Int) < (countTokens m.content : Int) ∧
        fitLoop r0 msgs = msgs.take k ++
          [truncMessage (r0 - (countTokensMsgs (msgs.take k) : Int)) m])) := by
  induction msgs with
  | nil =>
    intro r0
    exact ⟨0, by simp, by simp, Or.inl ⟨rfl, by simp [fitLoop]⟩⟩
  | cons m tl ih =>
    intro r0
    by_cases hfit : (countTokens m.content : Int) ≤ r0
    · obtain ⟨k, hk, hfits, hrest⟩ := ih (r0 - countTokens m.content)
      have harith : ∀ j : Nat,
          r0 - countTokens m.content - (countTokensMsgs (tl.take j) : Int) =
            r0 - (countTokensMsgs ((m :: tl).take (j + 1)) : Int) := by
        intro j
        rw [List.take_succ_cons, countTokensMsgs_cons]
        push_cast
        ring
      refine ⟨k + 1, by simp; omega, ?_, ?_⟩
      · intro i hi mm rest hdrop
        cases i with
        | zero =>
          simp only [List.drop_zero] at hdrop
          have hm : mm = m := by
            have := congrArg (fun l => l.head?) hdrop
            simpa using this.symm
          rw [hm]
          simp only [List.take_zero, countTokensMsgs_nil]
          push_cast
          omega
        | succ j =>
          have hdrop' : tl.drop j = mm :: rest := by
            simpa using hdrop
          have := hfits j (by omega) mm rest hdrop'
          rw [harith j] at this
          exact this
      · rcases hrest with ⟨hkeq, hfl⟩ | ⟨mm, rest, hdrop, hlt, hfl⟩
        · refine Or.inl ⟨by simp [hkeq], ?_⟩
          dsimp only [fitLoop]
          rw [if_pos hfit, hfl, List.take_succ_cons]
        · refine Or.inr ⟨mm, rest, by simpa using hdrop, ?_, ?_⟩
          · rw [← harith k]
            exact hlt
          · dsimp only [fitLoop]
            rw [if_pos hfit, hfl, ← harith k, List.take_succ_cons]
            simp
    · refine ⟨0, by simp, by simp, Or.inr ⟨m, tl, by simp, ?_, ?_⟩⟩
      · simp only [List.take_zero, countTokensMsgs_nil]
        push_cast
        omega
      · dsimp only [fitLoop]
        rw [if_neg hfit]
        simp only [List.take_zero, countTokensMsgs_nil]
        push_cast
        simp

/-- The `phi` entry of the message budget table. -/
theorem maxMessageTokens_phi : maxMessageTokens "phi" = 1433 := by decide

/-- The token estimate of the 6000-character message content. -/
theorem countTokens_bigUser : countTokens bigUserMsg.content = 1502 := by
  have h := countTokens_replicate 'a' rfl 5999
  have e1 : (5999 : Nat) + 1 = 6000 := by norm_num
  have e2 : (5 * 5999 + 50) / 20 = 1502 := by norm_num
  rw [e1, e2] at h
  exact h

/-- The total token estimate of the three-message conversation. -/
theorem countTokensMsgs_overBudget : countTokensMsgs overBudgetMsgs = 1506 := by
  have hb : countTokens smallUserMsg.content = 2 := by decide
  have hc : countTokens recentAssistantMsg.content = 2 := by decide
  show countTokensMsgs (bigUserMsg :: smallUserMsg :: recentAssistantMsg :: []) = 1506
  rw [countTokensMsgs_cons, countTokensMsgs_cons, countTokensMsgs_cons,
    countTokens_bigUser, countTokensMsgs_nil, hb, hc]

/-- No message of the conversation is a system message. -/
theorem overBudget_no_system :
    overBudgetMsgs.filter (fun m => m.role == "system") = [] := by decide

/-- Filtering out system messages keeps the whole conversation. -/
theorem overBudget_all_nonsystem :
    overBudgetMsgs.filter (fun m => !(m.role == "system")) = overBudgetMsgs := by
  show List.filter _ (bigUserMsg :: smallUserMsg :: recentAssistantMsg :: []) = _
  simp only [List.filter_cons, List.filter_nil,
    show (!(bigUserMsg.role == "system")) = true from by decide,
    show (!(smallUserMsg.role == "system")) = true from by decide,
    show (!(recentAssistantMsg.role == "system")) = true from by decide,
    if_true]
  rfl

/-- On the over-budget conversation and the model `phi`, the code
truncates the oldest recent message and drops everything after it. -/
theorem processLongMessages_overBudget :
    processLongMessages overBudgetMsgs "phi" = [truncMessage 1433 bigUserMsg] := by
  dsimp only [processLongMessages]
  rw [if_neg (by rw [countTokensMsgs_overBudget, maxMessageTokens_phi]; omega)]
  rw [overBudget_no_system, overBudget_all_nonsystem]
  have hlen : overBudgetMsgs.length = 3 := by
    show (bigUserMsg :: smallUserMsg :: recentAssistantMsg :: []).length = 3
    simp
  rw [hlen, countTokensMsgs_nil, maxMessageTokens_phi]
  norm_num
  show fitLoop 1433 (bigUserMsg :: smallUserMsg :: recentAssistantMsg :: []) = _
  dsimp only [fitLoop]
  rw [countTokens_bigUser]
  norm_num

/-- Claim C3 is false as stated: in the over-budget three-message
conversation (no system messages, so the 3 most recent non-system
messages are all three), the most recent message fits the whole
budget, yet the code drops it — the loop runs in chronological order
and breaks after truncating the oldest recent message, so the result
consists of that truncated oldest message only.  Under a most
recent-first processing that drops only messages that do not fit, the
most recent message would have been kept. -/
theorem C3_counterexample :
    maxMessageTokens "phi" < countTokensMsgs overBudgetMsgs ∧
    recentAssistantMsg ∈ overBudgetMsgs ∧
    (∀ m ∈ overBudgetMsgs, m.role ≠ "system") ∧
    countTokens recentAssistantMsg.content ≤ maxMessageTokens "phi" ∧
    recentAssistantMsg ∉ processLongMessages overBudgetMsgs "phi" := by
  refine ⟨?_, ?_, ?_, ?_, ?_⟩
  · rw [countTokensMsgs_overBudget, maxMessageTokens_phi]
    omega
  · show recentAssistantMsg ∈ bigUserMsg :: smallUserMsg :: recentAssistantMsg :: []
    simp
  · intro m hm
    have hm' : m ∈ bigUserMsg :: smallUserMsg :: recentAssistantMsg :: [] := hm
    simp only [List.mem_cons, List.not_mem_nil, or_false] at hm'
    rcases hm' with h | h | h <;> rw [h] <;> decide
  · rw [maxMessageTokens_phi]
    have : countTokens recentAssistantMsg.content = 2 := by decide
    omega
  · rw [processLongMessages_overBudget]
    intro hmem
    simp only [List.mem_singleton] at hmem
    have hrole := congrArg Message.role hmem
    simp only [truncMessage] at hrole
    exact absurd hrole (by decide)

/-- Claim C3 (amended): on every over-budget conversation the result
is all system messages (kept and counted first) followed by a
selection drawn only from the 3 most recent non-system messages,
processed in chronological order (oldest of the three first): each
message whose estimate fits the remaining budget is kept, and at the
first message that does not fit, a truncated version of it is appended
and all later (more recent) messages are dropped. -/
theorem C3_amended (messages : List Message) (model : String)
    (h : maxMessageTokens model < countTokensMsgs messages) :
    let systemMessages := messages.filter fun m => m.role == "system"
    let recent := (messages.filter fun m => !(m.role == "system")).drop
      ((messages.filter fun m => !(m.role == "system")).length - 3)
    let r0 : Int := (maxMessageTokens model : Int) - (countTokensMsgs systemMessages : Int)
    ∃ k, k ≤ recent.length ∧
      (∀ i, i < k → ∀ m rest, recent.drop i = m :: rest →
        (countTokens m.content : Int) ≤ r0 - (countTokensMsgs (recent.take i) : Int)) ∧
      ((k = recent.length ∧
        processLongMessages messages model = systemMessages ++ recent.take k) ∨
        (∃ m rest, recent.drop k = m :: rest ∧
          r0 - (countTokensMsgs (recent.take k) : Int) < (countTokens m.content : Int) ∧
          processLongMessages messages model = systemMessages ++
            (recent.take k ++
              [truncMessage (r0 - (countTokensMsgs (recent.take k) : Int)) m]))) := by
  intro systemMessages recent r0
  have hPLM : processLongMessages messages model = systemMessages ++ fitLoop r0 recent := by
    dsimp only [processLongMessages]
    rw [if_neg (by omega)]
  obtain ⟨k, hk, hfits, hrest⟩ := fitLoop_spec recent r0
  refine ⟨k, hk, hfits, ?_⟩
  rcases hrest with ⟨hkeq, hfl⟩ | ⟨m, rest, hdrop, hlt, hfl⟩
  · exact Or.inl ⟨hkeq, by rw [hPLM, hfl]⟩
  · exact Or.inr ⟨m, rest, hdrop, hlt, by rw [hPLM, hfl]⟩

/-- Witness for the amended claim C3 at the over-budget conversation
and the model `phi`. -/
theorem C3_witness :
    maxMessageTokens "phi" < countTokensMsgs overBudgetMsgs ∧
    (let systemMessages := overBudgetMsgs.filter fun m => m.role == "system"
     let recent := (overBudgetMsgs.filter fun m => !(m.role == "system")).drop
       ((overBudgetMsgs.filter fun m => !(m.role == "system")).length - 3)
     let r0 : Int := (maxMessageTokens "phi" : Int) - (countTokensMsgs systemMessages : Int)
     ∃ k, k ≤ recent.length ∧
       (∀ i, i < k → ∀ m rest, recent.drop i = m :: rest →
         (countTokens m.content : Int) ≤ r0 - (countTokensMsgs (recent.take i) : Int)) ∧
       ((k = recent.length ∧
         processLongMessages overBudgetMsgs "phi" = systemMessages ++ recent.take k) ∨
         (∃ m rest, recent.drop k = m :: rest ∧
           r0 - (countTokensMsgs (recent.take k) : Int) < (countTokens m.content : Int) ∧
           processLongMessages overBudgetMsgs "phi" = systemMessages ++
             (recent.take k ++
               [truncMessage (r0 - (countTokensMsgs (recent.take k) : Int)) m])))) := by
  have h : maxMessageTokens "phi" < countTokensMsgs overBudgetMsgs := by
    rw [countTokensMsgs_overBudget, maxMessageTokens_phi]
    omega
  exact ⟨h, C3_amended overBudgetMsgs "phi" h⟩

/-- If the first `j` attempts starting at `attempt` fail and the next
one succeeds (within the remaining iteration budget), the retry loop
returns the success value after exactly `j + 1` invocations. -/
theorem retryGo_ok {α : Type} (maxRetries timeout : Nat) (cid : String)
    (requestFn : Nat → Except TransportError α) (v : α) :
    ∀ (j remaining attempt : Nat), j < remaining →
    (∀ i, attempt ≤ i → i < attempt + j → ∃ e, requestFn i = .error e) →
    requestFn (attempt + j) = .ok v →
    retryGo maxRetries timeout cid requestFn remaining attempt = (.ok v, j + 1) := by
  intro j
  induction j with
  | zero =>
    intro remaining attempt hlt _ hok
    match remaining, hlt with
    | rm + 1, _ =>
      dsimp only [retryGo]
      rw [show attempt + 0 = attempt from rfl] at hok
      rw [hok]
  | succ n ih =>
    intro remaining attempt hlt hfail hok
    match remaining, hlt with
    | rm + 1, hlt =>
      obtain ⟨e, he⟩ := hfail attempt (Nat.le_refl _) (by omega)
      dsimp only [retryGo]
      simp only [he]
      have hrm : ¬ rm = 0 := by omega
      have hrec := ih rm (attempt + 1) (by omega)
        (fun i h1 h2 => hfail i (by omega) (by omega))
        (by rw [show attempt + 1 + n = attempt + (n + 1) from by omega]; exact hok)
      rw [if_neg hrm, hrec]

/-- Claim C4: a `requestFn` that fails on its first `k` invocations,
`k < maxRetries`, and succeeds on invocation `k + 1`, makes
`retryRequest` return that success value after exactly `k + 1`
invocations. -/
theorem C4_theorem {α : Type} (cfg : RetryConfig) (cid : String)
    (requestFn : Nat → Except TransportError α) (k : Nat) (v : α)
    (hk : k < cfg.maxRetries)
    (hfail : ∀ i, 1 ≤ i → i ≤ k → ∃ e, requestFn i = .error e)
    (hok : requestFn (k + 1) = .ok v) :
    retryRequest cfg cid requestFn = (.ok v, k + 1) := by
  dsimp only [retryRequest]
  exact retryGo_ok cfg.maxRetries cfg.timeout cid requestFn v k cfg.maxRetries 1 hk
    (fun i h1 h2 => hfail i h1 (by omega))
    (by rw [show 1 + k = k + 1 from by omega]; exact hok)

/-- Witness for claim C4: one failure (`k = 1`) then success, with
`maxRetries = 3`. -/
theorem C4_witness :
    1 < (3 : Nat) ∧ retryRequest ⟨3, 30000⟩ "cid" failOnceFn = (.ok 42, 2) := by
  refine ⟨by omega, C4_theorem ⟨3, 30000⟩ "cid" failOnceFn 1 42 (by decide) ?_ (by rfl)⟩
  intro i h1 h2
  have hi : i = 1 := by omega
  rw [hi]
  exact ⟨⟨none, "connection reset".data⟩, rfl⟩

/-- A `requestFn` all of whose invocations fail with timeout-classified
errors drives the retry loop to a `TimeoutError` after exactly
`remaining` invocations. -/
theorem retryGo_timeout {α : Type} (maxRetries timeout : Nat) (cid : String)
    (requestFn : Nat → Except TransportError α)
    (hall : ∀ i, ∃ e, requestFn i = .error e ∧ isTimeoutError e = true) :
    ∀ remaining attempt, 1 ≤ remaining →
    retryGo maxRetries timeout cid requestFn remaining attempt =
      (.error (.app (.timeoutError (timeoutMessage maxRetries) cid timeout)), remaining) := by
  intro remaining
  induction remaining with
  | zero =>
    intro attempt h
    exact absurd h (by omega)
  | succ rm ih =>
    intro attempt _
    obtain ⟨e, he, ht⟩ := hall attempt
    dsimp only [retryGo]
    simp only [he]
    by_cases hrm : rm = 0
    · subst hrm
      simp [ht]
    · rw [if_neg hrm, ih (attempt + 1) (by omega)]

/-- Claim C5: a `requestFn` that fails with a timeout-classified error
on every invocation makes `retryRequest` invoke it exactly
`maxRetries` times and fail with a `TimeoutError` carrying the
configured timeout value and the correlation id. -/
theorem C5_theorem {α : Type} (cfg : RetryConfig) (cid : String)
    (requestFn : Nat → Except TransportError α)
    (hmax : 1 ≤ cfg.maxRetries)
    (hall : ∀ i, ∃ e, requestFn i = .error e ∧ isTimeoutError e = true) :
    retryRequest cfg cid requestFn =
      (.error (.app (.timeoutError (timeoutMessage cfg.maxRetries) cid cfg.timeout)),
        cfg.maxRetries) := by
  dsimp only [retryRequest]
  exact retryGo_timeout cfg.maxRetries cfg.timeout cid requestFn hall cfg.maxRetries 1 hmax

/-- Witness for claim C5: the always-timing-out request function with
`maxRetries = 3` and timeout 30000. -/
theorem C5_witness :
    1 ≤ (3 : Nat) ∧
    retryRequest ⟨3, 30000⟩ "cid" alwaysTimeoutFn =
      (.error (.app (.timeoutError (timeoutMessage 3) "cid" 30000)), 3) := by
  refine ⟨by omega, C5_theorem ⟨3, 30000⟩ "cid" alwaysTimeoutFn (by decide) ?_⟩
  intro i
  exact ⟨⟨some "ECONNABORTED", "timeout of 30000ms exceeded".data⟩, rfl, by decide⟩

/-- The retry loop performs an additional invocation only after a
failure: when it reports `n` invocations, every invocation before the
last returned a transport error. -/
theorem retryGo_retries_only_after_failure {α : Type} (maxRetries timeout : Nat)
    (cid : String) (requestFn : Nat → Except TransportError α) :
    ∀ remaining attempt (r : Except Thrown α) (n : Nat),
    retryGo maxRetries timeout cid requestFn remaining attempt = (r, n) →
    ∀ i, attempt ≤ i → i + 1 < attempt + n → ∃ e, requestFn i = .error e := by
  intro remaining
  induction remaining with
  | zero =>
    intro attempt r n heq i h1 h2
    dsimp only [retryGo] at heq
    cases heq
    exact absurd h2 (by omega)
  | succ rm ih =>
    intro attempt r n heq i h1 h2
    dsimp only [retryGo] at heq
    cases hreq : requestFn attempt with
    | ok v =>
      simp only [hreq] at heq
      cases heq
      exact absurd h2 (by omega)
    | error e =>
      simp only [hreq] at heq
      by_cases hrm : rm = 0
      · subst hrm
        rw [if_pos rfl] at heq
        split at heq
        · cases heq
          exact absurd h2 (by omega)
        · cases heq
          exact absurd h2 (by omega)
      · rw [if_neg hrm] at heq
        rcases hinner : retryGo maxRetries timeout cid requestFn rm (attempt + 1)
          with ⟨r', n'⟩
        rw [hinner] at heq
        cases heq
        by_cases hi : i = attempt
        · exact ⟨e, hi ▸ hreq⟩
        · exact ih (attempt + 1) r' n' hinner i (by omega) (by omega)

/-- Claim C6: validation errors are never retried — when input
validation rejects the request (empty messages), the typed validation
error is thrown with zero backend invocations — and the transport
retries only failures of the backend call itself: every invocation of
`requestFn` beyond the first happens only because the previous
invocation returned a transport error. -/
theorem C6_theorem {α : Type} (cfg : RetryConfig) (cid : String)
    (params : ChatParams) (backend : Nat → Except TransportError (List (List Char)))
    (requestFn : Nat → Except TransportError α)
    (r : Except Thrown α) (n : Nat) :
    (params.messages = [] →
      generateChatCompletion cfg params cid backend =
        (.error (.appError "Messages array is required and must not be empty"
          400 "VALIDATION_ERROR" cid), 0)) ∧
    (retryRequest cfg cid requestFn = (r, n) →
      ∀ i, 1 ≤ i → i < n → ∃ e, requestFn i = .error e) := by
  constructor
  · intro hempty
    dsimp only [generateChatCompletion]
    rw [hempty]
    rfl
  · intro heq i h1 h2
    exact retryGo_retries_only_after_failure cfg.maxRetries cfg.timeout cid requestFn
      cfg.maxRetries 1 r n heq i h1 (by omega)

/-- Witness for claim C6: the empty-messages request produces the
validation error with zero invocations, and in a run with two
invocations the first one indeed failed. -/
theorem C6_witness :
    (generateChatCompletion ⟨3, 30000⟩ ⟨some "llama2", []⟩ "cid-6" helloBackend =
      (.error (.appError "Messages array is required and must not be empty"
        400 "VALIDATION_ERROR" "cid-6"), 0)) ∧
    (∀ i, 1 ≤ i → i < 2 → ∃ e, failOnceFn i = .error e) := by
  constructor
  · exact (C6_theorem ⟨3, 30000⟩ "cid-6" ⟨some "llama2", []⟩ helloBackend failOnceFn
      (.ok 42) 2).1 rfl
  · intro i h1 h2
    exact (C6_theorem ⟨3, 30000⟩ "cid-6" ⟨some "llama2", []⟩ helloBackend failOnceFn
      (.ok 42) 2).2 (by rfl) i h1 h2

/-- Claim C7: feeding the aggregation loop the chunk cut mid-object
followed by the chunk completing that line and carrying a second
complete line yields the reassembled content `Hello world`. -/
theorem C7_theorem :
    aggregateChunks [helChunk, loWorldChunk] = .ok "Hello world".data := by rfl

/-- Scanning input without a newline completes no line: everything
ends up in the trailing buffer. -/
theorem scanLines_no_newline (rest : List Char) :
    ∀ cur : List Char, '\n' ∉ rest →
    scanLines cur rest = .ok ([], cur.reverse ++ rest) := by
  induction rest with
  | nil =>
    intro cur h
    simp [scanLines]
  | cons c cs ih =>
    intro cur h
    simp only [List.mem_cons, not_or] at h
    dsimp only [scanLines]
    rw [if_neg (fun hc => h.1 hc.symm)]
    rw [ih (c :: cur) h.2]
    simp

/-- `consumeLines` on a newline-free buffer consumes nothing and keeps
the buffer. -/
theorem consumeLines_no_newline {buf : List Char} (h : '\n' ∉ buf) :
    consumeLines buf = .ok ([], buf) := by
  have hs := scanLines_no_newline buf [] h
  simpa [consumeLines] using hs

/-- The leftover buffer returned by the scan holds no newline. -/
theorem scanLines_leftover (rest : List Char) :
    ∀ cur acc leftover : List Char, '\n' ∉ cur →
    scanLines cur rest = .ok (acc, leftover) → '\n' ∉ leftover := by
  induction rest with
  | nil =>
    intro cur acc leftover hcur heq
    dsimp only [scanLines] at heq
    cases heq
    simpa using hcur
  | cons c cs ih =>
    intro cur acc leftover hcur heq
    dsimp only [scanLines] at heq
    by_cases hc : c = '\n'
    · rw [if_pos hc] at heq
      cases hline : processStreamLine cur.reverse with
      | error e =>
        rw [hline] at heq
        simp at heq
      | ok content =>
        simp only [hline] at heq
        cases hrec : scanLines [] cs with
        | error e =>
          rw [hrec] at heq
          simp at heq
        | ok pair =>
          rcases pair with ⟨acc', leftover'⟩
          simp only [hrec] at heq
          cases heq
          exact ih [] acc' leftover (by simp) hrec
    · rw [if_neg hc] at heq
      exact ih (c :: cur) acc leftover
        (by simp only [List.mem_cons, not_or]; exact ⟨fun hh => hc hh.symm, hcur⟩) heq

/-- The leftover buffer returned by `consumeLines` holds no newline. -/
theorem consumeLines_leftover {buf acc leftover : List Char}
    (h : consumeLines buf = .ok (acc, leftover)) : '\n' ∉ leftover :=
  scanLines_leftover buf [] acc leftover (by simp) h

/-- Appending a final newline-free chunk does not change the
aggregation outcome: the trailing partial line is discarded. -/
theorem aggregateAux_drop_tail (tail : List Char) (ht : '\n' ∉ tail) :
    ∀ (chunks : List (List Char)) (buffer acc : List Char), '\n' ∉ buffer →
    aggregateAux buffer acc (chunks ++ [tail]) = aggregateAux buffer acc chunks := by
  intro chunks
  induction chunks with
  | nil =>
    intro buffer acc hb
    dsimp only [aggregateAux, List.nil_append]
    have hnb : '\n' ∉ buffer ++ tail := by
      simp only [List.mem_append, not_or]
      exact ⟨hb, ht⟩
    rw [consumeLines_no_newline hnb]
    simp [aggregateAux]
  | cons c cs ih =>
    intro buffer acc hb
    dsimp only [List.cons_append, aggregateAux]
    cases hcl : consumeLines (buffer ++ c) with
    | error e =>
      simp only [hcl]
    | ok pair =>
      rcases pair with ⟨cc, leftover⟩
      simp only [hcl]
      exact ih leftover (acc ++ cc) (consumeLines_leftover hcl)

/-- Claim C8 (amended): at end of the stream any remaining buffered
partial line — one not terminated by a newline — is discarded, never
consumed: appending it as a final chunk leaves the accumulated result
unchanged, whether or not it parses as valid JSON. -/
theorem C8_amended (chunks : List (List Char)) (tail : List Char)
    (h : '\n' ∉ tail) :
    aggregateChunks (chunks ++ [tail]) = aggregateChunks chunks := by
  dsimp only [aggregateChunks]
  exact aggregateAux_drop_tail tail h chunks [] [] (by simp)

/-- Claim C8 is false as stated: the dangling line parses as valid
JSON and carries the content fragment `Hi`, yet aggregating a stream
that ends with it (un-terminated) yields the empty accumulator — the
fragment is discarded, not appended. -/
theorem C8_counterexample :
    processStreamLine danglingLine = .ok "Hi".data ∧
    aggregateChunks [danglingLine] = .ok [] :=
  ⟨rfl, rfl⟩

/-- Witness for the amended claim C8: appending the dangling line to
the two-chunk stream leaves the aggregation result unchanged. -/
theorem C8_witness :
    '\n' ∉ danglingLine ∧
    aggregateChunks [helChunk, loWorldChunk, danglingLine] =
      aggregateChunks [helChunk, loWorldChunk] := by
  have h : '\n' ∉ danglingLine := by decide
  exact ⟨h, C8_amended [helChunk, loWorldChunk] danglingLine h⟩

/-- Claim C9: a chat-completion call whose messages array is empty
fails with the 400 `VALIDATION_ERROR` application error tagged with
the correlation id, and the backend request function is never invoked
(zero invocations). -/
theorem C9_theorem (cfg : RetryConfig) (cid : String) (params : ChatParams)
    (backend : Nat → Except TransportError (List (List Char)))
    (h : params.messages = []) :
    generateChatCompletion cfg params cid backend =
      (.error (.appError "Messages array is required and must not be empty"
        400 "VALIDATION_ERROR" cid), 0) := by
  dsimp only [generateChatCompletion]
  rw [h]
  rfl

/-- Witness for claim C9 at a concrete empty-messages request. -/
theorem C9_witness :
    ((⟨some "llama2", []⟩ : ChatParams).messages = []) ∧
    generateChatCompletion ⟨3, 30000⟩ ⟨some "llama2", []⟩ "cid-9" helloBackend =
      (.error (.appError "Messages array is required and must not be empty"
        400 "VALIDATION_ERROR" "cid-9"), 0) :=
  ⟨rfl, C9_theorem ⟨3, 30000⟩ "cid-9" ⟨some "llama2", []⟩ helloBackend rfl⟩

/-- Claim C10: the end-to-end chat completion of `[user: "Hi"]`
against the backend stub streaming `Hello!` returns content `Hello!`
with `prompt_tokens = estimate("Hi")`, `completion_tokens = 6` (the
character length of the returned content) and
`total_tokens = prompt_tokens + completion_tokens`, after exactly one
backend invocation. -/
theorem C10_theorem :
    generateChatCompletion ⟨3, 30000⟩ ⟨some "llama2", [⟨"user", "Hi".data⟩]⟩
      "cid-10" helloBackend =
      (.ok { success := true
             content := "Hello!".data
             model := "llama2"
             usage :=
               { prompt_tokens := countTokens "Hi".data
                 completion_tokens := 6
                 total_tokens := countTokens "Hi".data + 6 } }, 1) := by rfl

/-- A successful split decomposes the buffer around its first newline:
the head part is newline-free and the buffer is the head, the newline,
then the remainder. -/
theorem splitAtNewline_eq {buf l r : List Char}
    (h : splitAtNewline buf = some (l, r)) : buf = l ++ '\n' :: r ∧ '\n' ∉ l := by
  induction buf generalizing l r with
  | nil => simp [splitAtNewline] at h
  | cons c cs ih =>
    by_cases hc : c = '\n'
    · simp [splitAtNewline, hc] at h
      subst hc
      obtain ⟨h1, h2⟩ := h
      subst h1
      subst h2
      simp
    · simp only [splitAtNewline, if_neg hc] at h
      match hs : splitAtNewline cs with
      | none => rw [hs] at h; simp at h
      | some (l', r') =>
        rw [hs] at h
        simp at h
        obtain ⟨h1, h2⟩ := h
        subst h1
        subst h2
        obtain ⟨he, hn⟩ := ih hs
        constructor
        · rw [he]
          simp
        · simp only [List.mem_cons, not_or]
          exact ⟨fun hh => hc hh.symm, hn⟩

/-- Scanning a buffer made of a newline-free line, a newline and a
remainder processes that line and continues on the remainder. -/
theorem scanLines_split (line : List Char) :
    ∀ (cur rest : List Char), '\n' ∉ line →
    scanLines cur (line ++ '\n' :: rest) =
      (match processStreamLine (cur.reverse ++ line) with
      | .error e => .error e
      | .ok c =>
        match scanLines [] rest with
        | .error e => .error e
        | .ok (acc, leftover) => .ok (c ++ acc, leftover)) := by
  induction line with
  | nil =>
    intro cur rest _
    dsimp only [scanLines, List.nil_append]
    rw [if_pos rfl]
    simp
  | cons c cs ih =>
    intro cur rest h
    simp only [List.mem_cons, not_or] at h
    dsimp only [List.cons_append, scanLines]
    rw [if_neg (fun hc => h.1 hc.symm)]
    rw [ih (c :: cur) rest h.2]
    simp

/-- `consumeLines` satisfies the `indexOf('\n')`/`substring` equation
of the source loop: on a buffer with a newline it processes the first
complete line and recurses on the remainder. -/
theorem consumeLines_split {buf line rest : List Char}
    (h : splitAtNewline buf = some (line, rest)) :
    consumeLines buf =
      (match processStreamLine line with
      | .error e => .error e
      | .ok c =>
        match consumeLines rest with
        | .error e => .error e
        | .ok (acc, leftover) => .ok (c ++ acc, leftover)) := by
  obtain ⟨heq, hnl⟩ := splitAtNewline_eq h
  rw [show consumeLines buf = scanLines [] buf from rfl, heq]
  have := scanLines_split line [] rest hnl
  simpa [consumeLines] using this
